import Mathlib

/-!
Verification development for the call-recording post-processing pipeline of the
AI_Teleprompter repository (`src/services/rich_processing.py` and
`src/services/rich_processing_speechbrain.py`, whose core functions are
line-for-line identical).

Modelling conventions of the shallow embedding:

* Python floats (segment timestamps) are modelled as rationals `ℚ`; the fusion
  code only compares, subtracts and takes `min`/`max` of them.
* Python strings holding transcript text are modelled as `List Char`, so that
  `str.splitlines` / `str.strip` / prefix tests can be modelled character by
  character; short identifier-like strings (speaker labels, file names) are
  modelled as `String`.
* A transcription segment is a Python dict that initially has the keys
  `"start"`, `"end"`, `"text"`; `assign_speaker_labels` later stores a
  `"speaker"` key into the same dict.  The possibly-absent key is modelled as
  an `Option String` field.  The field `stop` models the Python key `"end"`
  (`end` is a reserved word in Lean).
-/

namespace AITeleprompter

/-- A transcription segment as produced by `transcribe_wav`
(`rich_processing.py` lines 47–49): a dict with `"start"`, `"end"`, `"text"`,
and — after `assign_speaker_labels` has run — possibly a `"speaker"` key. -/
structure TSeg where
  start : ℚ
  stop : ℚ
  text : List Char
  speaker : Option String
deriving DecidableEq

/-- A diarisation segment (`rich_processing.py` lines 61–65): a dict with
`"start"`, `"end"`, `"speaker"`. -/
structure DSeg where
  start : ℚ
  stop : ℚ
  speaker : String
deriving DecidableEq

/-- Overlap duration of a diarisation segment with the current transcription
segment: `min(seg_end, d["end"]) - max(seg_start, d["start"])`
(`rich_processing.py` line 81). -/
def overlapLen (segStart segEnd : ℚ) (d : DSeg) : ℚ :=
  min segEnd d.stop - max segStart d.start

/-- The strict overlap test used to build the candidate list:
`d["end"] > seg_start and d["start"] < seg_end` (`rich_processing.py` line 77). -/
def overlapTest (segStart segEnd : ℚ) (d : DSeg) : Bool :=
  decide (segStart < d.stop) && decide (d.start < segEnd)

/-- One step of the best-speaker loop (`rich_processing.py` lines 80–84): the
accumulator holds `(best_speaker, max_overlap)`; a candidate replaces it only
when its overlap is strictly greater. -/
def stepBest (segStart segEnd : ℚ) (acc : String × ℚ) (d : DSeg) : String × ℚ :=
  let ov := overlapLen segStart segEnd d
  if acc.2 < ov then (d.speaker, ov) else acc

/-- The whole per-segment speaker selection (`rich_processing.py` lines 77–84):
filter the diarisation list by the strict overlap test, then fold the
strictly-greater comparison loop starting from `("Unknown", 0)`. -/
def pickSpeaker (segStart segEnd : ℚ) (ds : List DSeg) : String :=
  ((ds.filter (overlapTest segStart segEnd)).foldl (stepBest segStart segEnd)
    ("Unknown", 0)).1

/-- The update `seg["speaker"] = best_speaker` (`rich_processing.py` line 85)
performed on one transcription segment. -/
def enrichSeg (ds : List DSeg) (seg : TSeg) : TSeg :=
  { seg with speaker := some (pickSpeaker seg.start seg.stop ds) }

/-- `assign_speaker_labels` (`rich_processing.py` lines 68–87,
`rich_processing_speechbrain.py` lines 154–186).  The Python loop stores the
speaker into each input dict in place and appends the *same* object to
`enriched_segments`, so the call both updates the caller's list elements and
returns them.  The first component models the state of the input list
`transcription_segments` after the call; the second models the returned
`enriched_segments` list.  Both are the same updated segments. -/
def assignSpeakerLabelsRun (ts : List TSeg) (ds : List DSeg) :
    List TSeg × List TSeg :=
  let updated := ts.map (enrichSeg ds)
  (updated, updated)

/-- The return value of `assign_speaker_labels`. -/
def assign_speaker_labels (ts : List TSeg) (ds : List DSeg) : List TSeg :=
  (assignSpeakerLabelsRun ts ds).2

/-- C1: for every sequence of transcript segments and every (possibly empty,
possibly self-overlapping) sequence of diarization segments,
`assign_speaker_labels` returns exactly as many segments as the transcript
input, in the same order, each keeping the start, end and text of the
corresponding input segment; no segment is added, dropped, merged, split or
reordered. -/
theorem fusion_preserves_segments (ts : List TSeg) (ds : List DSeg) :
    (assign_speaker_labels ts ds).length = ts.length ∧
    (assign_speaker_labels ts ds).map (fun s => (s.start, s.stop, s.text)) =
      ts.map (fun s => (s.start, s.stop, s.text)) := by
  constructor
  · simp [assign_speaker_labels, assignSpeakerLabelsRun]
  · simp only [assign_speaker_labels, assignSpeakerLabelsRun, List.map_map]
    exact List.map_congr_left fun s _ => rfl

/-- C3: if no diarisation segment passes the strict overlap test against a
transcript segment — in particular when the diarisation sequence is empty —
the segment is labelled `"Unknown"` (and the function is total, so no error is
raised). -/
theorem fusion_no_overlap_unknown (t : TSeg) (ds : List DSeg)
    (h : ∀ d ∈ ds, ¬(t.start < d.stop ∧ d.start < t.stop)) :
    enrichSeg ds t = { t with speaker := some "Unknown" } := by
  have hfil : ds.filter (overlapTest t.start t.stop) = [] := by
    apply List.filter_eq_nil_iff.mpr
    intro d hd
    simpa [overlapTest] using h d hd
  simp [enrichSeg, pickSpeaker, hfil]

/-- Witness for C3 at a concrete input: one transcript segment, empty
diarisation sequence. -/
theorem fusion_no_overlap_unknown_witness :
    enrichSeg [] ⟨0, 2, "Hi".toList, none⟩ =
      { start := 0, stop := 2, text := "Hi".toList, speaker := some "Unknown" } :=
  fusion_no_overlap_unknown ⟨0, 2, "Hi".toList, none⟩ [] (by simp)

/-- C8 counterexample: fusion does not work on copies — the input segment
objects themselves are updated.  After running `assign_speaker_labels` on a
single segment (with empty diarisation), the state of the input list differs
from the input that was passed in: the segment now carries the speaker key. -/
theorem fusion_mutates_input :
    (assignSpeakerLabelsRun [⟨0, 1, "Hi".toList, none⟩] []).1 ≠
      [⟨0, 1, "Hi".toList, none⟩] := by
  decide

/-- C8 as amended: `assign_speaker_labels` attaches the winning label by
updating each input segment in place; the returned sequence is the input
sequence's (updated) objects themselves — the post-call state of the input
list coincides with the output — and every segment of it carries a speaker
label afterwards. -/
theorem fusion_in_place_aliasing (ts : List TSeg) (ds : List DSeg) :
    (assignSpeakerLabelsRun ts ds).1 = (assignSpeakerLabelsRun ts ds).2 ∧
    ((assignSpeakerLabelsRun ts ds).1.all fun s => s.speaker.isSome) = true := by
  refine ⟨rfl, ?_⟩
  simp only [assignSpeakerLabelsRun, List.all_eq_true]
  intro s hs
  rcases List.mem_map.mp hs with ⟨u, _, rfl⟩
  simp [enrichSeg]

/-- A candidate that fails the strict overlap test has non-positive overlap
duration, so it could never beat the loop's running maximum (which starts at
`0` and never decreases). -/
lemma overlapLen_nonpos_of_not_test (segStart segEnd : ℚ) (d : DSeg)
    (h : overlapTest segStart segEnd d = false) :
    overlapLen segStart segEnd d ≤ 0 := by
  have h' : segStart < d.stop → ¬d.start < segEnd := by
    intro h1 h2
    simp [overlapTest, h1, h2] at h
  unfold overlapLen
  rcases lt_or_ge segStart d.stop with h1 | h1
  · have h2 : segEnd ≤ d.start := le_of_not_lt (h' h1)
    have : min segEnd d.stop ≤ max segStart d.start :=
      le_trans (min_le_left _ _) (h2.trans (le_max_right _ _))
    linarith
  · have : min segEnd d.stop ≤ max segStart d.start :=
      le_trans (min_le_right _ _) (h1.trans (le_max_left _ _))
    linarith

/-- If every element of the list has overlap at most the accumulator's running
maximum, the fold leaves the accumulator unchanged. -/
lemma foldl_stepBest_const (segStart segEnd : ℚ) (p : String × ℚ)
    (l : List DSeg) (h : ∀ d ∈ l, overlapLen segStart segEnd d ≤ p.2) :
    l.foldl (stepBest segStart segEnd) p = p := by
  induction l with
  | nil => rfl
  | cons d rest ih =>
    have hd : overlapLen segStart segEnd d ≤ p.2 := h d (by simp)
    have hstep : stepBest segStart segEnd p d = p := by
      simp [stepBest, not_lt.mpr hd]
    rw [List.foldl_cons, hstep]
    exact ih fun x hx => h x (by simp [hx])

/-- If the running maximum is below `c` and every element's overlap is below
`c`, the fold's final running maximum stays below `c`. -/
lemma foldl_stepBest_max_lt (segStart segEnd : ℚ) (c : ℚ) (p : String × ℚ)
    (l : List DSeg) (hp : p.2 < c)
    (h : ∀ d ∈ l, overlapLen segStart segEnd d < c) :
    (l.foldl (stepBest segStart segEnd) p).2 < c := by
  induction l generalizing p with
  | nil => exact hp
  | cons d rest ih =>
    rw [List.foldl_cons]
    have hrest : ∀ x ∈ rest, overlapLen segStart segEnd x < c :=
      fun x hx => h x (by simp [hx])
    by_cases hcase : p.2 < overlapLen segStart segEnd d
    · have : stepBest segStart segEnd p d = (d.speaker, overlapLen segStart segEnd d) := by
        simp [stepBest, hcase]
      rw [this]
      exact ih (d.speaker, overlapLen segStart segEnd d) (h d (by simp)) hrest
    · have : stepBest segStart segEnd p d = p := by
        simp [stepBest, hcase]
      rw [this]
      exact ih p hp hrest

/-- With a non-negative running maximum, filtering by the strict overlap test
does not change the fold: the filtered-out candidates have non-positive
overlap and are skipped by the strictly-greater comparison anyway. -/
lemma foldl_stepBest_filter (segStart segEnd : ℚ) (p : String × ℚ)
    (l : List DSeg) (hp : 0 ≤ p.2) :
    (l.filter (overlapTest segStart segEnd)).foldl (stepBest segStart segEnd) p =
      l.foldl (stepBest segStart segEnd) p := by
  induction l generalizing p with
  | nil => rfl
  | cons d rest ih =>
    by_cases hd : overlapTest segStart segEnd d
    · rw [List.filter_cons_of_pos hd, List.foldl_cons, List.foldl_cons]
      by_cases hcase : p.2 < overlapLen segStart segEnd d
      · have hstep : stepBest segStart segEnd p d = (d.speaker, overlapLen segStart segEnd d) := by
          simp [stepBest, hcase]
        rw [hstep]
        exact ih _ (le_of_lt (lt_of_le_of_lt hp hcase))
      · have hstep : stepBest segStart segEnd p d = p := by
          simp [stepBest, hcase]
        rw [hstep]
        exact ih p hp
    · have hd' : overlapTest segStart segEnd d = false := by
        simpa using hd
      have hov : overlapLen segStart segEnd d ≤ 0 :=
        overlapLen_nonpos_of_not_test segStart segEnd d hd'
      have hstep : stepBest segStart segEnd p d = p := by
        simp [stepBest, not_lt.mpr (hov.trans hp)]
      rw [List.filter_cons_of_neg (by simpa using hd), List.foldl_cons, hstep]
      exact ih p hp

/-- C2: tie-break policy of the speaker-selection loop.  If the diarisation
sequence contains two candidates `d1` (earlier) and `d2` (later) whose overlap
durations with the transcript segment are equal, positive and maximal (every
other entry has strictly smaller overlap), the earlier candidate `d1` supplies
the assigned speaker label, because the loop's comparison is strictly-greater,
not greater-or-equal.  The concrete Agent/Customer scenario of the claim is
the witness below. -/
theorem fusion_tie_break (t : TSeg) (before mid after : List DSeg) (d1 d2 : DSeg)
    (heq : overlapLen t.start t.stop d1 = overlapLen t.start t.stop d2)
    (hpos : 0 < overlapLen t.start t.stop d1)
    (hlt : ∀ d ∈ before ++ mid ++ after,
      overlapLen t.start t.stop d < overlapLen t.start t.stop d1) :
    pickSpeaker t.start t.stop (before ++ d1 :: (mid ++ d2 :: after)) = d1.speaker := by
  unfold pickSpeaker
  rw [foldl_stepBest_filter t.start t.stop ("Unknown", 0) _ le_rfl]
  rw [List.foldl_append]
  have hbefore : ((before.foldl (stepBest t.start t.stop) ("Unknown", 0))).2 <
      overlapLen t.start t.stop d1 := by
    refine foldl_stepBest_max_lt t.start t.stop _ _ before hpos fun d hd => ?_
    exact hlt d (by simp [hd])
  rw [List.foldl_cons]
  have hstep : stepBest t.start t.stop
      (before.foldl (stepBest t.start t.stop) ("Unknown", 0)) d1 =
      (d1.speaker, overlapLen t.start t.stop d1) := by
    simp [stepBest, hbefore]
  rw [hstep]
  have hrest : (mid ++ d2 :: after).foldl (stepBest t.start t.stop)
      (d1.speaker, overlapLen t.start t.stop d1) =
      (d1.speaker, overlapLen t.start t.stop d1) := by
    refine foldl_stepBest_const t.start t.stop _ _ fun d hd => ?_
    rcases List.mem_append.mp hd with hmid | hd2
    · exact le_of_lt (hlt d (by simp [hmid]))
    · rcases List.mem_cons.mp hd2 with rfl | hafter
      · exact le_of_eq heq.symm
      · exact le_of_lt (hlt d (by simp [hafter]))
  rw [hrest]

/-- Witness for C2: the concrete scenario of the claim.  Transcript
`[{0.0, 2.0, "Hello there"}]`, diarisation
`[{0.0, 1.0, "Agent"}, {1.0, 2.0, "Customer"}]`: both overlaps equal `1`, and
the assigned speaker is `"Agent"`, the earlier candidate. -/
theorem fusion_tie_break_witness :
    pickSpeaker 0 2 [⟨0, 1, "Agent"⟩, ⟨1, 2, "Customer"⟩] = "Agent" := by
  have h := fusion_tie_break ⟨0, 2, "Hello there".toList, none⟩ [] [] []
    ⟨0, 1, "Agent"⟩ ⟨1, 2, "Customer"⟩
    (by norm_num [overlapLen, min_def, max_def])
    (by norm_num [overlapLen, min_def, max_def])
    (by simp)
  simpa using h

/-- The characters Python's `str.splitlines` treats as line boundaries:
LF, CR, VT, FF, FS, GS, RS, NEL, LINE SEPARATOR, PARAGRAPH SEPARATOR
(a CR directly followed by LF counts as a single boundary, handled below). -/
def isLineBreak (c : Char) : Bool :=
  c = '\n' || c = '\r' || c = '\x0b' || c = '\x0c' ||
  c = '\x1c' || c = '\x1d' || c = '\x1e' || c = '\x85' ||
  c = '\u2028' || c = '\u2029'

/-- The characters Python's `str.strip()` removes: the `str.isspace`
whitespace set. -/
def isPyWhitespace (c : Char) : Bool :=
  c = ' ' || c = '\t' || c = '\n' || c = '\r' || c = '\x0b' || c = '\x0c' ||
  c = '\x1c' || c = '\x1d' || c = '\x1e' || c = '\x1f' || c = '\x85' ||
  c = '\xa0' || c = '\u1680' || ('\u2000' ≤ c && c ≤ '\u200a') ||
  c = '\u2028' || c = '\u2029' || c = '\u202f' || c = '\u205f' || c = '\u3000'

/-- Collapse every CR-LF pair into a single LF, so that the subsequent
character-wise split sees each `"\r\n"` as one boundary, exactly as
`str.splitlines` does. -/
def normalizeCRLF : List Char → List Char
  | [] => []
  | [c] => [c]
  | c1 :: c2 :: rest =>
      if c1 = '\r' ∧ c2 = '\n' then '\n' :: normalizeCRLF rest
      else c1 :: normalizeCRLF (c2 :: rest)

/-- Split on individual line-boundary characters.  A trailing boundary does
not produce a final empty line (`"a\n".splitlines() == ["a"]`,
`"".splitlines() == []`), matching Python. -/
def splitOnBreaks : List Char → List Char → List (List Char)
  | [], acc => if acc.isEmpty then [] else [acc.reverse]
  | c :: rest, acc =>
      if isLineBreak c then acc.reverse :: splitOnBreaks rest []
      else splitOnBreaks rest (c :: acc)

/-- Python's `text.splitlines()`. -/
def pySplitlines (text : List Char) : List (List Char) :=
  splitOnBreaks (normalizeCRLF text) []

/-- Python's `line.strip()`: drop whitespace from both ends. -/
def pyStrip (l : List Char) : List Char :=
  ((l.dropWhile isPyWhitespace).reverse.dropWhile isPyWhitespace).reverse

/-- Python's `" ".join(lines)`. -/
def pyJoinSpace : List (List Char) → List Char
  | [] => []
  | [l] => l
  | l :: ls => l ++ ' ' :: pyJoinSpace ls

/-- `clean_transcript` (`rich_processing.py` lines 119–137,
`rich_processing_speechbrain.py` lines 230–250): split the text into lines,
keep a line only if its stripped form does not start with any denylist phrase,
and join the kept lines' stripped forms with single spaces. -/
def clean_transcript (unwantedPhrases : List (List Char)) (text : List Char) :
    List Char :=
  let lines := pySplitlines text
  let cleanedLines :=
    (lines.filter fun line =>
        !(unwantedPhrases.any fun p => p.isPrefixOf (pyStrip line))).map pyStrip
  pyJoinSpace cleanedLines

/-- The default denylist of `clean_transcript`
(`rich_processing.py` lines 123–130). -/
def defaultUnwantedPhrases : List (List Char) :=
  ["Thank you for calling".toList, "Please press".toList,
   "You have an incoming call".toList, "Our office is currently closed".toList,
   "Welcome to the".toList, "Please leave a message".toList]

/-- C7 counterexample: the cleaner is not idempotent on every input.  The text
`"\nHello"` cleans to `" Hello"` (the empty first line is kept, and the raw —
not stripped — joined result carries its separating space), and cleaning again
yields `"Hello"`. -/
theorem clean_transcript_not_idempotent :
    clean_transcript defaultUnwantedPhrases
        (clean_transcript defaultUnwantedPhrases "\nHello".toList) ≠
      clean_transcript defaultUnwantedPhrases "\nHello".toList := by
  decide

/-- Cleaning the empty text yields the empty text. -/
lemma clean_transcript_nil (ps : List (List Char)) :
    clean_transcript ps [] = [] := rfl

/-- `normalizeCRLF` is the identity on texts without line-boundary
characters (in particular without `'\r'`). -/
lemma normalizeCRLF_no_break (l : List Char)
    (h : ∀ c ∈ l, isLineBreak c = false) : normalizeCRLF l = l := by
  induction l with
  | nil => rfl
  | cons c1 tl ih =>
    cases tl with
    | nil => rfl
    | cons c2 rest =>
      have h1 : isLineBreak c1 = false := h c1 (by simp)
      have hcr : c1 ≠ '\r' := by
        intro e
        rw [e] at h1
        simp [isLineBreak] at h1
      rw [normalizeCRLF, if_neg (fun hand => hcr hand.1)]
      have := ih fun c hc => h c (by simp [List.mem_cons.mp hc])
      rw [this]

/-- On a boundary-free text the character-wise splitter returns the single
accumulated line (or nothing when both accumulator and text are empty). -/
lemma splitOnBreaks_no_break (l : List Char) (acc : List Char)
    (h : ∀ c ∈ l, isLineBreak c = false) :
    splitOnBreaks l acc =
      if acc = [] ∧ l = [] then [] else [acc.reverse ++ l] := by
  induction l generalizing acc with
  | nil =>
    rw [splitOnBreaks]
    rcases eq_or_ne acc [] with rfl | hacc
    · simp
    · simp [hacc, List.isEmpty_iff]
  | cons c rest ih =>
    have h1 : isLineBreak c = false := h c (by simp)
    rw [splitOnBreaks, h1]
    simp only [Bool.false_eq_true, if_false]
    rw [ih (c :: acc) fun x hx => h x (by simp [hx])]
    simp

/-- Python `splitlines` of a text containing no line-boundary character:
the empty text has no lines, any other such text is one single line. -/
lemma pySplitlines_no_break (x : List Char)
    (h : ∀ c ∈ x, isLineBreak c = false) :
    pySplitlines x = if x = [] then [] else [x] := by
  unfold pySplitlines
  rw [normalizeCRLF_no_break x h, splitOnBreaks_no_break x [] h]
  simp

/-- Dropping a matching run twice is the same as dropping it once. -/
lemma dropWhile_dropWhile (p : Char → Bool) (l : List Char) :
    (l.dropWhile p).dropWhile p = l.dropWhile p := by
  induction l with
  | nil => rfl
  | cons c rest ih =>
    by_cases hc : p c
    · simp [List.dropWhile_cons, hc, ih]
    · simp [List.dropWhile_cons, hc]

/-- The head surviving a `dropWhile` does not satisfy the predicate. -/
lemma head_dropWhile_false (p : Char → Bool) (l : List Char) :
    ∀ c, (l.dropWhile p).head? = some c → p c = false := by
  induction l with
  | nil => intro c hc; simp at hc
  | cons x rest ih =>
    intro c hc
    by_cases hx : p x
    · rw [List.dropWhile_cons_of_pos hx] at hc
      exact ih c hc
    · rw [List.dropWhile_cons_of_neg hx] at hc
      simp at hc
      rw [← hc]
      simpa using hx

/-- A list whose head (if any) fails the predicate is unchanged by
`dropWhile`. -/
lemma dropWhile_eq_self_of_head (p : Char → Bool) (l : List Char)
    (h : ∀ c, l.head? = some c → p c = false) : l.dropWhile p = l := by
  cases l with
  | nil => rfl
  | cons x rest => simp [List.dropWhile_cons, h x rfl]

/-- `dropWhile` returns a suffix of its input. -/
lemma dropWhile_is_suffix (p : Char → Bool) (l : List Char) :
    l.dropWhile p <:+ l := by
  induction l with
  | nil => exact List.suffix_rfl
  | cons x rest ih =>
    by_cases hx : p x
    · rw [List.dropWhile_cons_of_pos hx]
      exact ih.trans (List.suffix_cons x rest)
    · rw [List.dropWhile_cons_of_neg hx]

/-- Every character of the stripped text occurs in the original text. -/
lemma mem_pyStrip (l : List Char) (c : Char) (h : c ∈ pyStrip l) : c ∈ l := by
  unfold pyStrip at h
  have h1 := List.mem_reverse.mp h
  have h2 := (dropWhile_is_suffix _ _).subset h1
  have h3 := List.mem_reverse.mp h2
  exact (dropWhile_is_suffix _ _).subset h3

/-- Python `strip` is idempotent. -/
lemma pyStrip_idem (l : List Char) : pyStrip (pyStrip l) = pyStrip l := by
  have hhead : ∀ c,
      (((l.dropWhile isPyWhitespace).reverse.dropWhile isPyWhitespace).reverse).head? =
        some c → isPyWhitespace c = false := by
    intro c hc
    have hpre : ((l.dropWhile isPyWhitespace).reverse.dropWhile isPyWhitespace).reverse <+:
        l.dropWhile isPyWhitespace := by
      have hs := dropWhile_is_suffix isPyWhitespace (l.dropWhile isPyWhitespace).reverse
      have := List.reverse_prefix.mpr hs
      simpa using this
    rcases hpre with ⟨t, ht⟩
    have hhd : (l.dropWhile isPyWhitespace).head? = some c := by
      rcases hrev : ((l.dropWhile isPyWhitespace).reverse.dropWhile isPyWhitespace).reverse with
        _ | ⟨x, xs⟩
      · rw [hrev] at hc
        simp at hc
      · rw [hrev] at hc ht
        simp at hc
        rw [← ht]
        simpa using hc
    exact head_dropWhile_false isPyWhitespace l c hhd
  unfold pyStrip
  rw [dropWhile_eq_self_of_head _ _ hhead]
  rw [List.reverse_reverse, dropWhile_dropWhile]

/-- `clean_transcript` on a single-line (boundary-free) text: the result is
the stripped text, or empty when the stripped text starts with a denylist
phrase. -/
lemma clean_single_line (ps : List (List Char)) (x : List Char)
    (h : ∀ c ∈ x, isLineBreak c = false) :
    clean_transcript ps x =
      if ps.any (fun p => p.isPrefixOf (pyStrip x)) then [] else pyStrip x := by
  rcases eq_or_ne x [] with rfl | hx
  · rw [clean_transcript_nil]
    have hnil : pyStrip ([] : List Char) = [] := rfl
    rcases hps : ps.any fun p => p.isPrefixOf (pyStrip ([] : List Char)) <;>
      simp [hps, hnil]
  · unfold clean_transcript
    rw [pySplitlines_no_break x h]
    simp only [hx, if_false]
    by_cases hp : ps.any fun p => p.isPrefixOf (pyStrip x)
    · simp [hp, pyJoinSpace]
    · simp only [Bool.not_eq_true] at hp
      simp [hp, pyJoinSpace]

/-- C7 (amended): the cleaner is idempotent on every text containing no
line-boundary character (its output is always such a text only after one
more strip, so on general input idempotence fails — see the counterexample).
For boundary-free input, cleaning twice equals cleaning once, for every
denylist. -/
theorem clean_transcript_idem_single_line (ps : List (List Char)) (x : List Char)
    (h : ∀ c ∈ x, isLineBreak c = false) :
    clean_transcript ps (clean_transcript ps x) = clean_transcript ps x := by
  rw [clean_single_line ps x h]
  by_cases hp : ps.any fun p => p.isPrefixOf (pyStrip x)
  · simp [hp, clean_transcript_nil]
  · simp only [hp, Bool.false_eq_true, if_false]
    have h2 : ∀ c ∈ pyStrip x, isLineBreak c = false :=
      fun c hc => h c (mem_pyStrip x c hc)
    rw [clean_single_line ps (pyStrip x) h2, pyStrip_idem]
    simp [hp]

/-- Witness for C7 (amended) at a concrete single-line input. -/
theorem clean_transcript_idem_single_line_witness :
    clean_transcript defaultUnwantedPhrases
        (clean_transcript defaultUnwantedPhrases "Hello there".toList) =
      clean_transcript defaultUnwantedPhrases "Hello there".toList :=
  clean_transcript_idem_single_line defaultUnwantedPhrases "Hello there".toList
    (by decide)

/-- The full transcript built by `process_wav_file`
(`rich_processing.py` line 159, `rich_processing_speechbrain.py` line 280):
`" ".join(seg["text"] for seg in enriched_segments)`. -/
def fullTranscript (segs : List TSeg) : List Char :=
  pyJoinSpace (segs.map fun s => s.text)

/-- Joining boundary-free lines with single spaces yields a boundary-free
text (a space is not a line boundary). -/
lemma pyJoinSpace_no_break (ls : List (List Char))
    (h : ∀ l ∈ ls, ∀ c ∈ l, isLineBreak c = false) :
    ∀ c ∈ pyJoinSpace ls, isLineBreak c = false := by
  induction ls with
  | nil => intro c hc; simp [pyJoinSpace] at hc
  | cons l rest ih =>
    cases rest with
    | nil =>
      intro c hc
      exact h l (by simp) c (by simpa [pyJoinSpace] using hc)
    | cons l2 rest2 =>
      intro c hc
      rw [show pyJoinSpace (l :: l2 :: rest2) = l ++ ' ' :: pyJoinSpace (l2 :: rest2)
        from rfl] at hc
      rcases List.mem_append.mp hc with hcl | hcr
      · exact h l (by simp) c hcl
      · rcases List.mem_cons.mp hcr with rfl | hcj
        · decide
        · exact ih (fun u hu => h u (by simp [hu])) c hcj

/-- C10: in the composed per-file pipeline, the text handed to the cleaner is
the enriched segments' texts joined by single spaces, and the enriched texts
are the transcript texts; when no segment text contains a line-boundary
character the cleaner sees exactly one line and acts all-or-nothing: it
returns the empty text when the stripped joined text starts with a denylist
phrase, and otherwise the stripped joined text in full. -/
theorem pipeline_clean_all_or_nothing (ps : List (List Char)) (ts : List TSeg)
    (ds : List DSeg) (h : ∀ s ∈ ts, ∀ c ∈ s.text, isLineBreak c = false) :
    clean_transcript ps (fullTranscript (assign_speaker_labels ts ds)) =
      if ps.any (fun p => p.isPrefixOf (pyStrip (fullTranscript ts))) then []
      else pyStrip (fullTranscript ts) := by
  have htext : (assign_speaker_labels ts ds).map (fun s => s.text) =
      ts.map (fun s => s.text) := by
    simp only [assign_speaker_labels, assignSpeakerLabelsRun, List.map_map]
    exact List.map_congr_left fun s _ => rfl
  have hfull : fullTranscript (assign_speaker_labels ts ds) = fullTranscript ts := by
    rw [fullTranscript, fullTranscript, htext]
  rw [hfull]
  apply clean_single_line
  apply pyJoinSpace_no_break
  intro l hl
  rcases List.mem_map.mp hl with ⟨s, hs, rfl⟩
  exact h s hs

/-- Witness for C10 at a concrete input: one segment with text `"Hi"`, empty
diarisation, default denylist; the cleaned pipeline text is `"Hi"`. -/
theorem pipeline_clean_all_or_nothing_witness :
    clean_transcript defaultUnwantedPhrases
        (fullTranscript (assign_speaker_labels [⟨0, 1, "Hi".toList, none⟩] [])) =
      "Hi".toList := by
  have h := pipeline_clean_all_or_nothing defaultUnwantedPhrases
    [⟨0, 1, "Hi".toList, none⟩] [] (by decide)
  rw [h]
  decide

/-!
Entity extraction (`extract_entities`, `rich_processing.py` lines 89–117,
`rich_processing_speechbrain.py` lines 188–228).  The `names` and `products`
fields come from an external NER model and are outside the scope of the
claims; the `emails` and `phone_numbers` fields come from two regular
expressions evaluated with `re.findall`:

  email pattern  `[\w\.-]+@[\w\.-]+\.\w+`
  phone pattern  `\+?\d[\d\s\-\(\)]{7,}\d`

Both patterns are plain sequences of character-class items with greedy
quantifiers, so Python's leftmost, greedy, backtracking matching is modelled
exactly by trying, for each item in order, the possible consumption counts
from largest to smallest and taking the first combination under which the
remaining items match.
-/

/-- A regex quantifier occurring in the two patterns. -/
inductive Quantifier
  | one
  | opt
  | plus
  | atLeast (n : Nat)

/-- One pattern element: a character class with a quantifier. -/
structure PatItem where
  cls : Char → Bool
  quant : Quantifier

/-- The consumption counts a greedy quantifier tries at the current position,
largest first; `k` is the length of the maximal run of class characters. -/
def candCounts (it : PatItem) (cs : List Char) : List Nat :=
  let k := (cs.takeWhile it.cls).length
  match it.quant with
  | .one => if 1 ≤ k then [1] else []
  | .opt => if 1 ≤ k then [1, 0] else [0]
  | .plus => (List.range k).map (fun i => k - i)
  | .atLeast n => if n ≤ k then (List.range (k - n + 1)).map (fun i => k - i) else []

/-- Backtracking matcher for an item sequence against a prefix of `cs`:
returns the matched prefix, trying greedier consumptions first. -/
def matchItems : List PatItem → List Char → Option (List Char)
  | [], _ => some []
  | it :: rest, cs =>
      (candCounts it cs).findSome? fun n =>
        (matchItems rest (cs.drop n)).map fun tail => cs.take n ++ tail

/-- Scan for non-overlapping matches left to right, continuing after each
match, as `re.findall` does.  The fuel argument equals the remaining text's
length; each step either advances one position or consumes a non-empty match,
so the fuel never runs out early.  (A zero-width match cannot arise for the
two patterns, both of which contain a mandatory one-character item; the
zero-width branch merely keeps the function total.) -/
def findAllGo (pat : List PatItem) : Nat → List Char → List (List Char)
  | 0, _ => []
  | _ + 1, [] => []
  | fuel + 1, c :: rest =>
      match matchItems pat (c :: rest) with
      | some m =>
          if m.isEmpty then findAllGo pat fuel rest
          else m :: findAllGo pat fuel ((c :: rest).drop m.length)
      | none => findAllGo pat fuel rest

/-- `re.findall(pattern, text)` for a class-quantifier sequence pattern. -/
def findAll (pat : List PatItem) (text : List Char) : List (List Char) :=
  findAllGo pat text.length text

/-- `\w` for the ASCII texts at hand: letters, digits, underscore. -/
def isWordChar (c : Char) : Bool := c.isAlphanum || c = '_'

/-- The class `[\w\.-]` of the email pattern. -/
def isEmailChar (c : Char) : Bool := isWordChar c || c = '.' || c = '-'

/-- `\s` for ASCII texts. -/
def isSpaceChar (c : Char) : Bool :=
  c = ' ' || c = '\t' || c = '\n' || c = '\r' || c = '\x0b' || c = '\x0c'

/-- The class `[\d\s\-\(\)]` of the phone pattern. -/
def isPhoneBodyChar (c : Char) : Bool :=
  c.isDigit || isSpaceChar c || c = '-' || c = '(' || c = ')'

/-- The email pattern `[\w\.-]+@[\w\.-]+\.\w+`
(`rich_processing.py` line 106). -/
def emailPattern : List PatItem :=
  [⟨isEmailChar, .plus⟩, ⟨(· = '@'), .one⟩, ⟨isEmailChar, .plus⟩,
   ⟨(· = '.'), .one⟩, ⟨isWordChar, .plus⟩]

/-- The phone pattern `\+?\d[\d\s\-\(\)]{7,}\d`
(`rich_processing.py` line 107). -/
def phonePattern : List PatItem :=
  [⟨(· = '+'), .opt⟩, ⟨Char.isDigit, .one⟩, ⟨isPhoneBodyChar, .atLeast 7⟩,
   ⟨Char.isDigit, .one⟩]

/-- The `emails` entry of `extract_entities` output: the regex findall result
deduplicated (`entities[key] = list(set(entities[key]))`; the Python set
discards order, so the result is determined as a set — modelled as the
duplicate-free list of first occurrences). -/
def extract_entities_emails (text : List Char) : List (List Char) :=
  (findAll emailPattern text).dedup

/-- The `phone_numbers` entry of `extract_entities` output, deduplicated the
same way. -/
def extract_entities_phone_numbers (text : List Char) : List (List Char) :=
  (findAll phonePattern text).dedup

/-- C9: on the text `"Contact me at a@b.com or +1 555-123-4567"` the
extracted `emails` set is exactly `{"a@b.com"}` and the extracted
`phone_numbers` set is exactly `{"+1 555-123-4567"}`, each matched as the
exact substring of the input. -/
theorem extract_entities_scenario :
    extract_entities_emails "Contact me at a@b.com or +1 555-123-4567".toList =
        ["a@b.com".toList] ∧
      extract_entities_phone_numbers
          "Contact me at a@b.com or +1 555-123-4567".toList =
        ["+1 555-123-4567".toList] := by
  constructor <;> decide

/-!
Batch orchestrator (`SpeechProcessor.process_all_files`,
`rich_processing_speechbrain.py` lines 297–348).  The per-file pipeline
(transcription, diarisation, fusion, cleaning, extraction) invokes external
models, so it is abstracted as an oracle `processFile : String → Option
CallRecord`; `none` models the exception branch of the loop body (lines
338–339), which logs the error and continues with the next file.  The
filesystem interaction of the final save (lines 344–345,
`with output_path.open("w") as f: json.dump(combined_data, f, indent=2)`) is
modelled as an explicit trace of file operations so that atomicity can be
stated.
-/

/-- The `entities` dict of a CallRecord. -/
structure EntityBag where
  emails : List (List Char)
  phone_numbers : List (List Char)
  names : List (List Char)
  products : List (List Char)
deriving DecidableEq

/-- The per-file persisted record built by `process_wav_file`
(`rich_processing_speechbrain.py` lines 289–295). -/
structure CallRecord where
  file : String
  transcript : List Char
  customer_transcript : List Char
  segments : List TSeg
  entities : EntityBag
deriving DecidableEq

/-- Outcome of the artifact-load block (lines 314–326): the file is absent,
parses to a list of records, or raises while being read/parsed. -/
inductive LoadOutcome
  | absent
  | parsed (records : List CallRecord)
  | corrupt
deriving DecidableEq

/-- `existing_data` after the load block: the parsed records, or `[]` both
when the file is absent and — via the `except` branch of lines 320–323 —
when it is corrupt. -/
def existingData : LoadOutcome → List CallRecord
  | .absent => []
  | .parsed rs => rs
  | .corrupt => []

/-- `processed_files` after the load block: the `"file"` keys of the parsed
records, or the empty set when the file is absent or corrupt. -/
def processedFiles : LoadOutcome → List String
  | .absent => []
  | .parsed rs => rs.map (fun r => r.file)
  | .corrupt => []

/-- A filesystem operation on the persisted artifact. -/
inductive FsOp
  | openTruncate (path : String)
  | writeContent (path : String) (records : List CallRecord)
  | closeFile (path : String)
deriving DecidableEq

/-- The path an operation touches. -/
def fsOpPath : FsOp → String
  | .openTruncate p => p
  | .writeContent p _ => p
  | .closeFile p => p

/-- The save of lines 344–345: `output_path.open("w")` truncates the final
artifact in place, then `json.dump` writes the combined records into it, then
the context manager closes it.  No temporary file and no rename occur. -/
def persistCombined (outputPath : String) (combined : List CallRecord) :
    List FsOp :=
  [.openTruncate outputPath, .writeContent outputPath combined,
   .closeFile outputPath]

/-- Result of one `process_all_files` run: the `new_entries` list and the
trace of filesystem operations performed on the artifact. -/
structure RunResult where
  newEntries : List CallRecord
  writes : List FsOp
deriving DecidableEq

/-- `process_all_files` (lines 297–348): build `processed_files` from the
loaded artifact, walk the directory skipping already-processed names, collect
`new_entries` (skipping files whose processing raises), and — only when
`new_entries` is non-empty — write `existing_data + new_entries` to the
artifact in place. -/
def process_all_files (wavFiles : List String) (load : LoadOutcome)
    (processFile : String → Option CallRecord) (outputPath : String) :
    RunResult :=
  let processed := processedFiles load
  let newEntries := wavFiles.filterMap fun f =>
    if f ∈ processed then none else processFile f
  if newEntries.isEmpty then ⟨newEntries, []⟩
  else ⟨newEntries, persistCombined outputPath (existingData load ++ newEntries)⟩

/-- C4: a second run over an unchanged directory and an unchanged,
well-formed artifact — every directory filename already among the artifact's
`"file"` keys — produces zero new CallRecord entries and performs no write,
leaving the persisted artifact unchanged. -/
theorem orchestrator_idempotent (wavFiles : List String)
    (records : List CallRecord) (processFile : String → Option CallRecord)
    (outputPath : String)
    (h : ∀ f ∈ wavFiles, f ∈ records.map (fun r => r.file)) :
    process_all_files wavFiles (.parsed records) processFile outputPath =
      ⟨[], []⟩ := by
  have hnil : (wavFiles.filterMap fun f =>
      if f ∈ processedFiles (.parsed records) then none else processFile f) = [] := by
    apply List.filterMap_eq_nil_iff.mpr
    intro f hf
    simp [processedFiles, h f hf]
  simp [process_all_files, hnil]

/-- A concrete CallRecord used by the orchestrator witnesses. -/
def sampleRecord (name : String) : CallRecord :=
  { file := name, transcript := [], customer_transcript := [], segments := [],
    entities := ⟨[], [], [], []⟩ }

/-- Witness for C4 at a concrete input: directory `["a.wav"]`, artifact
holding one record for `a.wav`. -/
theorem orchestrator_idempotent_witness :
    process_all_files ["a.wav"] (.parsed [sampleRecord "a.wav"])
        (fun f => some (sampleRecord f)) "data/enriched_transcripts.json" =
      ⟨[], []⟩ :=
  orchestrator_idempotent ["a.wav"] [sampleRecord "a.wav"]
    (fun f => some (sampleRecord f)) "data/enriched_transcripts.json"
    (by decide)

/-- C5 exhibit: with a corrupt artifact the run does not terminate with a
failure — the load exception is caught (lines 320–323), the run proceeds
from an empty collection and empty processed-file set, and the final save
rewrites the artifact with only the new records, discarding whatever the
corrupt artifact previously recorded. -/
theorem orchestrator_corrupt_artifact_overwrites :
    process_all_files ["b.wav"] .corrupt (fun f => some (sampleRecord f))
        "data/enriched_transcripts.json" =
      ⟨[sampleRecord "b.wav"],
       persistCombined "data/enriched_transcripts.json"
         [sampleRecord "b.wav"]⟩ := by
  decide

/-- Replay the artifact's observable content through a trace: a truncating
open leaves it in a state that is no well-formed record collection (`none`),
a content write replaces it entirely, closing changes nothing. -/
def applyFsOp : Option (List CallRecord) → FsOp → Option (List CallRecord)
  | _, .openTruncate _ => none
  | _, .writeContent _ rs => some rs
  | st, .closeFile _ => st

/-- All intermediate artifact states during a trace, starting state
included. -/
def contentStates (initial : Option (List CallRecord)) (ops : List FsOp) :
    List (Option (List CallRecord)) :=
  ops.scanl applyFsOp initial

/-- C6 exhibit: the save is not atomic and uses no temporary location.  For a
run with one pre-existing record and one new record, every operation of the
write trace targets the final artifact path directly, and between the
truncating open and the content write the artifact holds neither the old nor
the new collection — a crash there loses the pre-existing entries. -/
theorem orchestrator_write_not_atomic :
    (process_all_files ["b.wav"] (.parsed [sampleRecord "a.wav"])
        (fun f => some (sampleRecord f))
        "data/enriched_transcripts.json").writes.all
          (fun op => fsOpPath op = "data/enriched_transcripts.json") = true ∧
    none ∈ contentStates (some [sampleRecord "a.wav"])
        (process_all_files ["b.wav"] (.parsed [sampleRecord "a.wav"])
          (fun f => some (sampleRecord f))
          "data/enriched_transcripts.json").writes ∧
    (contentStates (some [sampleRecord "a.wav"])
        (process_all_files ["b.wav"] (.parsed [sampleRecord "a.wav"])
          (fun f => some (sampleRecord f))
          "data/enriched_transcripts.json").writes).getLast? =
      some (some [sampleRecord "a.wav", sampleRecord "b.wav"]) := by
  refine ⟨by decide, by decide, by decide⟩

end AITeleprompter
